import Mathlib

/- Batteries marks the `Rat` field operations `@[irreducible]`; re-allow
unfolding them so that `decide` can evaluate the embedded analyses on the
concrete inputs of the witnesses and counterexamples below. -/
attribute [local semireducible] Rat.add Rat.mul Rat.inv Rat.sub

set_option maxRecDepth 100000

/- Shallow embedding of the pattern-analysis core of the
Activity-Detection-Timeline-Analysis repository:
`src/data/pattern_analyzer.py` (PatternAnalyzer) and
`src/models/timeline_builder.py` (TimelineBuilder).

Conventions of the embedding:
* pandas statistics that yield NaN on degenerate input (`Series.std()` on a
  length-1 series, `rolling(...).mean()` positions without a full window)
  are modelled with `Option`; a comparison against NaN is false in pandas
  and is modelled by matching on the `Option`.
* float arithmetic is modelled exactly over `ℚ`; the one irrational
  quantity, the standard deviation `sqrt(var)`, is kept in squared form in
  the executable definitions, with bridging lemmas (`abs_gt_two_sqrt_iff`)
  relating the squared comparisons to the `Real.sqrt` formulations used in
  theorem statements.
* a pandas DataFrame is a `Frame`: its rows plus presence flags for the
  columns that the analysed functions read or assign in place.  In-place
  column assignment (`data['date'] = ...`) is modelled by returning the
  updated `Frame` alongside the analysis result. -/

/-- Insert a value into an ascending sorted list, dropping duplicates.
`foldr insertSorted []` models the sorted distinct key index produced by
pandas `groupby` (which sorts keys) and by `sorted(series.unique())`. -/
def insertSorted {α : Type} [LinearOrder α] (x : α) : List α → List α
  | [] => [x]
  | y :: ys =>
    if x < y then x :: y :: ys
    else if x = y then y :: ys
    else y :: insertSorted x ys

/-- Sorted list of the distinct elements of `l`. -/
def sortedDedup {α : Type} [LinearOrder α] (l : List α) : List α :=
  l.foldr insertSorted []

/-- Per-key sizes of a grouping, keys ascending: models
`frame.groupby(key).size()`. -/
def groupCounts {α : Type} [LinearOrder α] (keys : List α) : List (α × Nat) :=
  (sortedDedup keys).map (fun k => (k, keys.count k))

/-- Mean of a rational series (`Series.mean()`); `0/0 = 0` on the empty
series, which the analysed code never hits on this path. -/
def listMean (l : List ℚ) : ℚ := l.sum / l.length

/-- Sample variance, i.e. the square of pandas `Series.std()` (ddof = 1);
`none` models the NaN returned for a series of length < 2. -/
def sampleVar (l : List ℚ) : Option ℚ :=
  if l.length < 2 then none
  else some ((l.map (fun x => (x - listMean l) ^ 2)).sum / ((l.length : ℚ) - 1))

/-- Modelled from the spec: the square of the population standard deviation
(ddof = 0) of the entire series, which the spec claims the anomaly
threshold uses. -/
def popVar (l : List ℚ) : Option ℚ :=
  if l.length = 0 then none
  else some ((l.map (fun x => (x - listMean l) ^ 2)).sum / (l.length : ℚ))

/-- Mean of the 7-wide window of `vals` starting at position `k`. -/
def winMean (vals : List ℚ) (k : Nat) : ℚ := listMean ((vals.drop k).take 7)

/-- `Series.rolling(window=7, center=True).mean()`: position `i` holds the
mean of positions `i-3 .. i+3`; with pandas' default `min_periods = window`
a position whose centered window is not fully inside the series holds NaN,
modelled as `none`. -/
def rollingMean7 (vals : List ℚ) : List (Option ℚ) :=
  (List.range vals.length).map (fun i =>
    if 3 ≤ i ∧ i + 3 < vals.length then some (winMean vals (i - 3)) else none)

/-- Modelled from the spec claim (C2): a centered rolling mean where
boundary positions with fewer than 7 available values "use whatever values
exist" (i.e. `min_periods = 1`). -/
def rollingMean7Minp1 (vals : List ℚ) : List (Option ℚ) :=
  (List.range vals.length).map (fun i =>
    some (listMean ((vals.drop (i - 3)).take (min 7 (i + 4)))))

/-- `Series.mode().iloc[0]` on a series of hours: pandas `mode()` returns
the values of maximal frequency sorted ascending, so `iloc[0]` is the
smallest such value; `none` models the empty-series guard. -/
def seriesMode (l : List Nat) : Option Nat :=
  let mx := ((sortedDedup l).map (fun v => l.count v)).foldr max 0
  (sortedDedup l).find? (fun v => l.count v = mx)

/-- Modelled from the spec claim (C8): the mode where, among values tied
for most frequent, the value whose first occurrence in the series comes
earliest wins. -/
def modeFirstOccurrence (l : List Nat) : Option Nat :=
  let mx := (l.map (fun v => l.count v)).foldr max 0
  l.find? (fun v => l.count v = mx)

/-- Keep the first occurrence of each value, in encounter order: models
`Series.unique()`. -/
def firstDedup {α : Type} [DecidableEq α] : List α → List α
  | [] => []
  | x :: xs => x :: (firstDedup xs).filter (fun y => y ≠ x)

/-- Insert `x` after every element `y` with `le y x`: the insertion step
of a stable insertion sort. -/
def insertStable {α : Type} (le : α → α → Bool) (x : α) : List α → List α
  | [] => [x]
  | y :: ys => if le y x then y :: insertStable le x ys else x :: y :: ys

/-- Stable sort by `le` (equal elements keep their encounter order), the
ordering contract of Python `sorted` and of pandas `nlargest`/`nsmallest`
with the default `keep='first'`. -/
def sortStable {α : Type} (le : α → α → Bool) (l : List α) : List α :=
  l.foldl (fun acc x => insertStable le x acc) []

/-- A timestamp, reduced to the two derived fields the analyses read:
`dt.date` (an absolute day number) and `dt.hour`. -/
structure Timestamp where
  day : Int
  hour : Nat
deriving DecidableEq, Repr

/-- One event record (a DataFrame row). `predicted_activity` is `none`
when the classifier produced no label for the row. -/
structure Row where
  datetime : Timestamp
  predicted_activity : Option String
deriving DecidableEq, Repr

/-- A DataFrame: rows plus the presence flags of the columns the analysed
functions read or assign in place.  Rows always carry the underlying
instant, which in the source lives in the `datetime` column (or in
`timestamp` before `detect_life_events` converts it). -/
structure Frame where
  rows : List Row
  hasDatetimeCol : Bool
  hasTimestampCol : Bool
  hasPredictedCol : Bool
  hasDateCol : Bool
  hasWeekCol : Bool
deriving DecidableEq, Repr

/-- Sorted distinct day numbers of the rows: `sorted(data['date'].unique())`
and the index of `data.groupby('date')`. -/
def dayList (rows : List Row) : List Int :=
  sortedDedup (rows.map (fun r => r.datetime.day))

/-- Hours of the rows falling on day `d`. -/
def hoursOfDay (rows : List Row) (d : Int) : List Nat :=
  (rows.filter (fun r => r.datetime.day = d)).map (fun r => r.datetime.hour)

/-- `data.groupby('date')['hour'].min()`, per date ascending.  Groups are
nonempty, so the `getD` default is never read. -/
def firstHours (rows : List Row) : List Nat :=
  (dayList rows).map (fun d => (hoursOfDay rows d).min?.getD 0)

/-- `data.groupby('date')['hour'].max()`, per date ascending. -/
def lastHours (rows : List Row) : List Nat :=
  (dayList rows).map (fun d => (hoursOfDay rows d).max?.getD 0)

/-- The `{'average': .., 'std': .., 'most_common': ..}` summary built for
the wake-up and sleep series.  The source stores `Series.std()`, a float;
`stdSq` carries its exact square (the ddof-1 variance), since the square
root is irrational in general. -/
structure HourStats where
  average : ℚ
  stdSq : Option ℚ
  most_common : Option Nat
deriving DecidableEq, Repr

def hourStatsOf (series : List Nat) : HourStats :=
  let q : List ℚ := series.map (fun h => (h : ℚ))
  { average := listMean q
    stdSq := sampleVar q
    most_common := seriesMode series }

/-- `hourly_activity.nlargest(3).index`: sort by count descending — pandas
keeps first (ascending-hour) order among ties — and take 3 hours. -/
def peakHours (hist : List (Nat × Nat)) : List Nat :=
  ((sortStable (fun a b => decide (b.2 ≤ a.2)) hist).take 3).map (fun p => p.1)

/-- `hourly_activity.nsmallest(3).index`: count ascending, ties keep
ascending-hour order. -/
def quietHours (hist : List (Nat × Nat)) : List Nat :=
  ((sortStable (fun a b => decide (a.2 ≤ b.2)) hist).take 3).map (fun p => p.1)

/-- The dict returned by `analyze_daily_routine` on its non-empty path;
all five keys are set unconditionally there. -/
structure DailyPatterns where
  wake_up_time : HourStats
  sleep_time : HourStats
  hourly_activity : List (Nat × Nat)
  peak_hours : List Nat
  quiet_hours : List Nat
deriving DecidableEq, Repr

/-- The dict built on the non-empty path of `analyze_daily_routine`; all
five keys are set unconditionally there. -/
def patternsOf (rows : List Row) : DailyPatterns :=
  { wake_up_time := hourStatsOf (firstHours rows)
    sleep_time := hourStatsOf (lastHours rows)
    hourly_activity := groupCounts (rows.map (fun r => r.datetime.hour))
    peak_hours := peakHours (groupCounts (rows.map (fun r => r.datetime.hour)))
    quiet_hours := quietHours (groupCounts (rows.map (fun r => r.datetime.hour))) }

/-- `PatternAnalyzer.analyze_daily_routine`.  `none` is the empty dict
returned when the frame is empty or has no `datetime` column.  The
function works on `data.copy()` (line 23), so the caller's frame is
returned unchanged; the duplicate-column repair is a no-op on our
well-formed frames. -/
def analyze_daily_routine (f : Frame) : Frame × Option DailyPatterns :=
  if f.rows.isEmpty || !f.hasDatetimeCol then (f, none)
  else (f, some (patternsOf f.rows))

/-- One volume-anomaly dict from `detect_life_events`.  The `confidence`
float `min(|count − expected| / std / 3, 1.0)` is a function of
`activity_count`, `expected_count` and the series variance; being
irrational in general it appears in theorem statements via `Real.sqrt`
rather than as a stored field. -/
structure AnomalyEvent where
  date : Int
  type : String
  description : String
  activity_count : Nat
  expected_count : ℚ
deriving DecidableEq, Repr

/-- `data.groupby('date').size()`: per-day row counts, dates ascending. -/
def dailyCounts (rows : List Row) : List (Int × Nat) :=
  groupCounts (rows.map (fun r => r.datetime.day))

/-- The daily-count series as rationals. -/
def countVals (rows : List Row) : List ℚ :=
  (dailyCounts rows).map (fun p => (p.2 : ℚ))

/-- One emitted record; the source fills `description` with
`f"Unusual {type.replace('_', ' ')} detected"`, written out per branch
here. -/
def mkAnomaly (d : Int) (c : Nat) (e : ℚ) : AnomalyEvent :=
  if e < (c : ℚ) then
    { date := d
      type := "high_activity"
      description := "Unusual high activity detected"
      activity_count := c
      expected_count := e }
  else
    { date := d
      type := "low_activity"
      description := "Unusual low activity detected"
      activity_count := c
      expected_count := e }

/-- The volume-anomaly loop of `detect_life_events` (lines 76-91): for each
date of the daily-count series whose centered rolling mean is defined,
emit an event when `|count − expected| > 2 * daily_counts.std()`.  The
test is carried in the equivalent squared form
`(count − expected)² > 4·var` (see `abs_gt_two_sqrt_iff`); a NaN std
(series of length 1) makes the comparison false, hence the `none`
branch. -/
def volumeEvents (rows : List Row) : List AnomalyEvent :=
  match sampleVar (countVals rows) with
  | none => []
  | some v =>
    ((dailyCounts rows).zip (rollingMean7 (countVals rows))).filterMap (fun p =>
      match p.2 with
      | none => none
      | some e =>
        if ((p.1.2 : ℚ) - e) ^ 2 > 4 * v then some (mkAnomaly p.1.1 p.1.2 e)
        else none)

/-- Modelled from the spec claim (C1): the same loop with the threshold
taken from the population standard deviation of the series. -/
def volumeEventsPop (rows : List Row) : List AnomalyEvent :=
  match popVar (countVals rows) with
  | none => []
  | some v =>
    ((dailyCounts rows).zip (rollingMean7 (countVals rows))).filterMap (fun p =>
      match p.2 with
      | none => none
      | some e =>
        if ((p.1.2 : ℚ) - e) ^ 2 > 4 * v then some (mkAnomaly p.1.1 p.1.2 e)
        else none)

/-- Modelled from the spec claim (C2): the same loop with the rolling
baseline letting boundary dates use whatever values exist
(`min_periods = 1`). -/
def volumeEventsMinp1 (rows : List Row) : List AnomalyEvent :=
  match sampleVar (countVals rows) with
  | none => []
  | some v =>
    ((dailyCounts rows).zip (rollingMean7Minp1 (countVals rows))).filterMap (fun p =>
      match p.2 with
      | none => none
      | some e =>
        if ((p.1.2 : ℚ) - e) ^ 2 > 4 * v then some (mkAnomaly p.1.1 p.1.2 e)
        else none)

/-- One travel-period dict from `_detect_travel_patterns`. -/
structure TravelEvent where
  date : Int
  type : String
  description : String
  confidence : ℚ
  duration_days : Nat
deriving DecidableEq, Repr

/-- The grouping loop of `_detect_travel_patterns` (lines 148-157): scan
the sorted distinct dates, growing `cur` while the gap from
`current_period[-1]` (carried as `last`, always the previously scanned
date) is ≤ 1 day, closing the run otherwise. -/
def chunkAux (cur : List Int) (last : Int) : List Int → List (List Int)
  | [] => [cur]
  | d :: ds =>
    if d - last ≤ 1 then chunkAux (cur ++ [d]) d ds
    else cur :: chunkAux [d] d ds

/-- The travel periods: the scan of `_detect_travel_patterns` started on
the first date. -/
def chunkRuns : List Int → List (List Int)
  | [] => []
  | d :: ds => chunkAux [d] d ds

/-- `sorted(travel_data['date'].unique())` for the rows labelled
`'Travel'`. -/
def travelDates (rows : List Row) : List Int :=
  sortedDedup
    ((rows.filter (fun r => r.predicted_activity = some "Travel")).map
      (fun r => r.datetime.day))

def mkTravel (p : List Int) : TravelEvent :=
  { date := p.headD 0
    type := "travel_period"
    description := toString p.length ++ "-day travel period"
    confidence := 4 / 5
    duration_days := p.length }

/-- `PatternAnalyzer._detect_travel_patterns`: periods of length ≥ 2
become events with `date = period[0]` and `duration_days = len(period)`. -/
def detect_travel_patterns (rows : List Row) : List TravelEvent :=
  ((chunkRuns (travelDates rows)).filter (fun p => 2 ≤ p.length)).map mkTravel

/-- The heterogeneous dicts collected by `detect_life_events`. -/
inductive LifeEvent
  | volume (e : AnomalyEvent)
  | travel (t : TravelEvent)
deriving DecidableEq, Repr

def LifeEvent.eventDate : LifeEvent → Int
  | .volume e => e.date
  | .travel t => t.date

/-- `PatternAnalyzer.detect_life_events`.  The guard (fewer than 10 rows)
returns before any column assignment; past it the function assigns
`data['datetime']` (when converting from `timestamp`) and `data['date']`
in place on the caller's frame, which the returned frame records.  Travel
detection runs only when the `predicted_activity` column exists, and the
merged list is stably sorted by date. -/
def detect_life_events (f : Frame) : Frame × List LifeEvent :=
  if f.rows.length < 10 then (f, [])
  else
    let f2 : Frame :=
      { f with
        hasDatetimeCol := f.hasDatetimeCol || f.hasTimestampCol
        hasDateCol := true }
    let evs :=
      (volumeEvents f.rows).map LifeEvent.volume ++
        (if f.hasPredictedCol then
          (detect_travel_patterns f.rows).map LifeEvent.travel
        else [])
    (f2, sortStable (fun a b => decide (a.eventDate ≤ b.eventDate)) evs)

/-- The dict built by `_analyze_activity_trends`; `overall_trend` and
`trend_direction` are set only behind the `len(weekly_counts) > 2` gate,
modelled by `Option`. -/
structure Trends where
  overall_trend : Option ℚ
  trend_direction : Option String
  activity_specific_trends : List (String × ℚ)
  hourly_distribution : List (Nat × Nat)
deriving DecidableEq, Repr

/-- The ISO-week bucket of a day number (`dt.to_period('W')`); day 0 is
taken at a week boundary, so buckets are floors of day/7. -/
def weekOf (d : Int) : Int := d / 7

/-- The ordinary-least-squares slope of `vals` against `x = 0..n-1`: the
value `np.polyfit(x, values, 1)[0]` computes. -/
def olsSlope (vals : List ℚ) : ℚ :=
  let n : ℚ := vals.length
  let xs : List ℚ := (List.range vals.length).map (fun i => (i : ℚ))
  let sx := xs.sum
  let sy := vals.sum
  let sxx := (xs.map (fun x => x ^ 2)).sum
  let sxy := ((xs.zip vals).map (fun p => p.1 * p.2)).sum
  (n * sxy - sx * sy) / (n * sxx - sx ^ 2)

/-- `TimelineBuilder._calculate_trend`: 0 for series shorter than 2, the
OLS slope otherwise. -/
def calculate_trend (vals : List ℚ) : ℚ :=
  if vals.length < 2 then 0 else olsSlope vals

/-- `data.groupby('week').size()`: per-week row counts, weeks ascending. -/
def weeklyCounts (rows : List Row) : List (Int × Nat) :=
  groupCounts (rows.map (fun r => weekOf r.datetime.day))

/-- The weekly counts of the rows carrying label `a`. -/
def labelWeekly (rows : List Row) (a : String) : List (Int × Nat) :=
  groupCounts
    ((rows.filter (fun r => r.predicted_activity = some a)).map
      (fun r => weekOf r.datetime.day))

/-- The trends dict built on the non-empty path of
`_analyze_activity_trends`: `overall_trend`/`trend_direction` are set
only when the weekly series has more than 2 points, and each label
(first-occurrence order, as `unique()` yields) gets a slope under the
same gate. -/
def trendsOf (rows : List Row) : Trends :=
  { overall_trend :=
      if 2 < (weeklyCounts rows).length then
        some (calculate_trend ((weeklyCounts rows).map (fun p => (p.2 : ℚ))))
      else none
    trend_direction :=
      if 2 < (weeklyCounts rows).length then
        some
          (if 0 < calculate_trend ((weeklyCounts rows).map (fun p => (p.2 : ℚ)))
           then "increasing"
           else if calculate_trend ((weeklyCounts rows).map (fun p => (p.2 : ℚ))) < 0
           then "decreasing"
           else "stable")
      else none
    activity_specific_trends :=
      (firstDedup (rows.filterMap (fun r => r.predicted_activity))).filterMap
        (fun a =>
          if 2 < (labelWeekly rows a).length then
            some (a, calculate_trend ((labelWeekly rows a).map (fun p => (p.2 : ℚ))))
          else none)
    hourly_distribution := groupCounts (rows.map (fun r => r.datetime.hour)) }

/-- `TimelineBuilder._analyze_activity_trends`.  `none` is the empty dict
returned for an empty frame; otherwise the function assigns
`data['week']` in place (recorded in the returned frame) and builds
`trendsOf`. -/
def analyze_activity_trends (f : Frame) : Frame × Option Trends :=
  if f.rows.isEmpty then (f, none)
  else ({ f with hasWeekCol := true }, some (trendsOf f.rows))

/-- `n` rows on day `d` (hour fixed at 12), used to realize a prescribed
daily-count series. -/
def mkDayRows (d : Int) (n : Nat) : List Row :=
  List.replicate n { datetime := { day := d, hour := 12 }, predicted_activity := none }

/-- Rows realizing the daily-count series `counts` on days `0, 1, ...`. -/
def rowsOfCounts (counts : List Nat) : List Row :=
  (List.range counts.length).flatMap (fun i => mkDayRows i (counts.getD i 0))


/- ------------------------------------------------------------------ -/
/- Concrete inputs used by witnesses and counterexamples.             -/
/- ------------------------------------------------------------------ -/

/-- 11 days whose counts put the centre day's deviation strictly between
twice the population std and twice the sample std of the series. -/
def exC1rows : List Row := rowsOfCounts [27, 20, 20, 20, 20, 30, 20, 20, 20, 20, 13]

/-- 10 days with a large first-day count: the first date has no full
centered window, so the source computes no baseline for it. -/
def exC2rows : List Row := rowsOfCounts [100, 1, 1, 1, 1, 1, 1, 1, 1, 1]

/-- Perfectly flat activity: 14 days of one event each. -/
def exC6rows : List Row := rowsOfCounts [1, 1, 1, 1, 1, 1, 1, 1, 1, 1, 1, 1, 1, 1]

/-- The spec's §8 example: daily counts 5,...,5,50,5,...,5 over 15 days. -/
def exC9rows : List Row :=
  rowsOfCounts [5, 5, 5, 5, 5, 5, 5, 50, 5, 5, 5, 5, 5, 5, 5]

/-- The spec's interval example: travel-labelled rows on Jan 1, 2, 3
and 10, encoded as days 1, 2, 3, 10. -/
def exC5rows : List Row :=
  [1, 2, 3, 10].map (fun d =>
    { datetime := { day := d, hour := 9 }, predicted_activity := some "Travel" })

/-- A frame with no rows. -/
def emptyFrame : Frame :=
  { rows := []
    hasDatetimeCol := true
    hasTimestampCol := false
    hasPredictedCol := false
    hasDateCol := false
    hasWeekCol := false }

/-- A well-formed frame around `rs`: `datetime` and `predicted_activity`
present, derived columns not yet assigned. -/
def frameOf (rs : List Row) : Frame :=
  { rows := rs
    hasDatetimeCol := true
    hasTimestampCol := false
    hasPredictedCol := true
    hasDateCol := false
    hasWeekCol := false }

/-- Two dates whose first-activity hours are 9 then 7: a frequency tie
between hours 9 and 7. -/
def exC8frame : Frame :=
  frameOf
    [{ datetime := { day := 0, hour := 9 }, predicted_activity := none },
     { datetime := { day := 1, hour := 7 }, predicted_activity := none }]

/-- A non-empty frame lacking the `datetime` column. -/
def exC10frame : Frame :=
  { rows := rowsOfCounts [1, 1, 1]
    hasDatetimeCol := false
    hasTimestampCol := false
    hasPredictedCol := false
    hasDateCol := false
    hasWeekCol := false }

/-- Ten rows, `date` column not yet present: detect_life_events passes its
length guard and assigns the column in place. -/
def exC4frame : Frame := frameOf (rowsOfCounts [1, 1, 1, 1, 1, 1, 1, 1, 1, 1])

/-- Two rows in two different ISO weeks: the weekly series has 2 points,
below the 3-point trend gate. -/
def exC3frame : Frame := frameOf (rowsOfCounts [1, 0, 0, 0, 0, 0, 0, 1])

/-- Rows giving label "X" three weekly points and label "Y" two. -/
def exC7rows : List Row :=
  [((0 : Int), "X"), (7, "X"), (14, "X"), (0, "Y"), (7, "Y")].map (fun p =>
    { datetime := { day := p.1, hour := 10 }, predicted_activity := some p.2 })

def exC7frame : Frame := frameOf exC7rows

/-- The trends dict produced on `exC7frame`. -/
def tC7 : Trends :=
  { overall_trend := some (-1 / 2)
    trend_direction := some "decreasing"
    activity_specific_trends := [("X", 0)]
    hourly_distribution := [(10, 5)] }

/- ------------------------------------------------------------------ -/
/- Utility lemmas about the list helpers.                             -/
/- ------------------------------------------------------------------ -/

theorem sortedDedup_cons {α : Type} [LinearOrder α] (x : α) (xs : List α) :
    sortedDedup (x :: xs) = insertSorted x (sortedDedup xs) := rfl

theorem mem_insertSorted {α : Type} [LinearOrder α] (x a : α) (l : List α) :
    a ∈ insertSorted x l ↔ a = x ∨ a ∈ l := by
  induction l with
  | nil => simp [insertSorted]
  | cons y ys ih =>
    simp only [insertSorted]
    split
    · simp [List.mem_cons]
    · split
      · next h1 h2 =>
        subst h2
        simp only [List.mem_cons]
        tauto
      · simp only [List.mem_cons, ih]
        tauto

theorem sorted_insertSorted {α : Type} [LinearOrder α] (x : α) (l : List α)
    (h : l.Sorted (· < ·)) : (insertSorted x l).Sorted (· < ·) := by
  induction l with
  | nil => simp [insertSorted]
  | cons y ys ih =>
    rw [List.sorted_cons] at h
    obtain ⟨hy, hys⟩ := h
    simp only [insertSorted]
    split
    · next h1 =>
      rw [List.sorted_cons]
      refine ⟨?_, by rw [List.sorted_cons]; exact ⟨hy, hys⟩⟩
      intro b hb
      rcases List.mem_cons.mp hb with rfl | hb
      · exact h1
      · exact h1.trans (hy b hb)
    · split
      · next h1 h2 =>
        rw [List.sorted_cons]
        exact ⟨hy, hys⟩
      · next h1 h2 =>
        rw [List.sorted_cons]
        refine ⟨?_, ih hys⟩
        intro b hb
        rcases (mem_insertSorted x b ys).mp hb with rfl | hb
        · exact lt_of_le_of_ne (not_lt.mp h1) (fun hyx => h2 hyx.symm)
        · exact hy b hb

theorem sortedDedup_sorted {α : Type} [LinearOrder α] (l : List α) :
    (sortedDedup l).Sorted (· < ·) := by
  induction l with
  | nil => simp [sortedDedup]
  | cons x xs ih => exact sorted_insertSorted x _ ih

theorem mem_sortedDedup {α : Type} [LinearOrder α] (l : List α) (a : α) :
    a ∈ sortedDedup l ↔ a ∈ l := by
  induction l with
  | nil => simp [sortedDedup]
  | cons x xs ih =>
    rw [sortedDedup_cons, mem_insertSorted]
    simp [ih]

theorem sortedDedup_ne_nil {α : Type} [LinearOrder α] (l : List α) (h : l ≠ []) :
    sortedDedup l ≠ [] := by
  cases l with
  | nil => exact absurd rfl h
  | cons x xs =>
    intro hnil
    have : x ∈ sortedDedup (x :: xs) := (mem_sortedDedup _ x).mpr (List.mem_cons_self ..)
    rw [hnil] at this
    exact List.not_mem_nil x this

theorem le_foldr_max (ns : List Nat) (x : Nat) (hx : x ∈ ns) :
    x ≤ ns.foldr max 0 := by
  induction ns with
  | nil => cases hx
  | cons a ns ih =>
    rcases List.mem_cons.mp hx with rfl | h
    · exact le_max_left ..
    · exact le_trans (ih h) (le_max_right ..)

theorem foldr_max_mem (ns : List Nat) (h : ns ≠ []) : ns.foldr max 0 ∈ ns := by
  induction ns with
  | nil => exact absurd rfl h
  | cons a ns ih =>
    cases ns with
    | nil => simp
    | cons b ms =>
      rcases le_or_lt a ((b :: ms).foldr max 0) with hle | hlt
      · rw [List.foldr_cons, max_eq_right hle]
        exact List.mem_cons_of_mem _ (ih (by simp))
      · rw [List.foldr_cons, max_eq_left hlt.le]
        exact List.mem_cons_self ..

theorem find?_sorted_min {α : Type} [LinearOrder α] (p : α → Bool) (l : List α)
    (hs : l.Sorted (· < ·)) (m : α) (hm : l.find? p = some m) :
    ∀ w ∈ l, p w → m ≤ w := by
  induction l with
  | nil => simp at hm
  | cons a l ih =>
    rw [List.sorted_cons] at hs
    intro w hw hpw
    by_cases hpa : p a
    · rw [List.find?_cons_of_pos _ hpa] at hm
      cases hm
      rcases List.mem_cons.mp hw with rfl | hw
      · exact le_refl _
      · exact (hs.1 w hw).le
    · rw [List.find?_cons_of_neg _ hpa] at hm
      rcases List.mem_cons.mp hw with rfl | hw
      · exact absurd hpw hpa
      · exact ih hs.2 hm w hw hpw

theorem mem_zip_iff {α β : Type} (l : List α) (l' : List β) (a : α) (b : β) :
    (a, b) ∈ l.zip l' ↔ ∃ i : Nat, l[i]? = some a ∧ l'[i]? = some b := by
  induction l generalizing l' with
  | nil => simp
  | cons x xs ih =>
    cases l' with
    | nil => simp [List.zip_nil_right]
    | cons y ys =>
      rw [List.zip_cons_cons, List.mem_cons, ih]
      constructor
      · rintro (h | ⟨i, h1, h2⟩)
        · rw [Prod.mk.injEq] at h
          refine ⟨0, ?_, ?_⟩
          · rw [List.getElem?_cons_zero, h.1]
          · rw [List.getElem?_cons_zero, h.2]
        · refine ⟨i + 1, ?_, ?_⟩
          · rw [List.getElem?_cons_succ]
            exact h1
          · rw [List.getElem?_cons_succ]
            exact h2
      · rintro ⟨i, h1, h2⟩
        cases i with
        | zero =>
          left
          rw [List.getElem?_cons_zero, Option.some.injEq] at h1 h2
          rw [Prod.mk.injEq]
          exact ⟨h1.symm, h2.symm⟩
        | succ i =>
          right
          rw [List.getElem?_cons_succ] at h1 h2
          exact ⟨i, h1, h2⟩

theorem sum_eq_zero_all_zero (l : List ℚ) (hn : ∀ x ∈ l, 0 ≤ x) (h : l.sum = 0) :
    ∀ x ∈ l, x = 0 := by
  induction l with
  | nil => simp
  | cons a l ih =>
    rw [List.sum_cons] at h
    have ha : 0 ≤ a := hn a (List.mem_cons_self ..)
    have hl : 0 ≤ l.sum :=
      List.sum_nonneg (fun x hx => hn x (List.mem_cons_of_mem _ hx))
    have ha0 : a = 0 := le_antisymm (by linarith) ha
    intro x hx
    rcases List.mem_cons.mp hx with rfl | hx
    · exact ha0
    · exact ih (fun y hy => hn y (List.mem_cons_of_mem _ hy)) (by linarith) x hx

theorem listMean_const (l : List ℚ) (m : ℚ) (hne : l ≠ []) (h : ∀ x ∈ l, x = m) :
    listMean l = m := by
  have hs : l.sum = l.length • m := List.sum_eq_card_nsmul l m h
  have hl : (l.length : ℚ) ≠ 0 :=
    Nat.cast_ne_zero.mpr (List.length_pos.mpr hne).ne'
  rw [listMean, hs, nsmul_eq_mul]
  exact mul_div_cancel_left₀ m hl

/- ------------------------------------------------------------------ -/
/- Statistics lemmas.                                                 -/
/- ------------------------------------------------------------------ -/

theorem sampleVar_nonneg (l : List ℚ) (v : ℚ) (h : sampleVar l = some v) :
    0 ≤ v := by
  rw [sampleVar] at h
  split at h
  · cases h
  · next hlen =>
    have h2 : (2 : ℚ) ≤ (l.length : ℚ) := by exact_mod_cast not_lt.mp hlen
    cases h
    apply div_nonneg
    · apply List.sum_nonneg
      intro x hx
      rw [List.mem_map] at hx
      obtain ⟨y, _, rfl⟩ := hx
      positivity
    · linarith

theorem sampleVar_zero (l : List ℚ) (h : sampleVar l = some 0) :
    ∀ x ∈ l, x = listMean l := by
  rw [sampleVar] at h
  split at h
  · cases h
  · next hlen =>
    have h2 : (2 : ℚ) ≤ (l.length : ℚ) := by exact_mod_cast not_lt.mp hlen
    have hden : (l.length : ℚ) - 1 ≠ 0 := by
      intro h0
      rw [sub_eq_zero] at h0
      rw [h0] at h2
      norm_num at h2
    have hsum : (l.map (fun x => (x - listMean l) ^ 2)).sum = 0 := by
      have hq := Option.some.inj h
      rcases div_eq_zero_iff.mp hq with h' | h'
      · exact h'
      · exact absurd h' hden
    have hnn : ∀ y ∈ l.map (fun x => (x - listMean l) ^ 2), 0 ≤ y := by
      intro y hy
      rw [List.mem_map] at hy
      obtain ⟨z, _, rfl⟩ := hy
      positivity
    intro x hx
    have hx2 : (x - listMean l) ^ 2 = 0 :=
      sum_eq_zero_all_zero _ hnn hsum _ (List.mem_map_of_mem _ hx)
    have := pow_eq_zero_iff (n := 2) (by norm_num) |>.mp hx2
    linarith [this]

theorem winMean_const (vals : List ℚ) (m : ℚ) (k : Nat)
    (hall : ∀ x ∈ vals, x = m) (hk : k + 7 ≤ vals.length) :
    winMean vals k = m := by
  apply listMean_const
  · have hlen : ((vals.drop k).take 7).length = 7 := by
      rw [List.length_take, List.length_drop]
      omega
    intro hnil
    rw [hnil] at hlen
    simp at hlen
  · intro x hx
    exact hall x (List.mem_of_mem_drop (List.mem_of_mem_take hx))

theorem rollingMean7_length (vals : List ℚ) :
    (rollingMean7 vals).length = vals.length := by
  simp [rollingMean7]

theorem rollingMean7_getElem (vals : List ℚ) (i : Nat) :
    (rollingMean7 vals)[i]? =
      if i < vals.length then
        some (if 3 ≤ i ∧ i + 3 < vals.length then some (winMean vals (i - 3)) else none)
      else none := by
  rw [rollingMean7, List.getElem?_map]
  by_cases hi : i < vals.length
  · rw [List.getElem?_range hi]
    simp [hi]
  · rw [if_neg hi]
    rw [List.getElem?_eq_none (by simpa using not_lt.mp hi)]
    rfl

theorem mem_rollingMean7 (vals : List ℚ) (o : Option ℚ) (ho : o ∈ rollingMean7 vals) :
    o = none ∨ ∃ k, k + 7 ≤ vals.length ∧ o = some (winMean vals k) := by
  rw [rollingMean7, List.mem_map] at ho
  obtain ⟨i, hi, rfl⟩ := ho
  rw [List.mem_range] at hi
  split
  · next h => exact Or.inr ⟨i - 3, by omega, rfl⟩
  · exact Or.inl rfl

/-- The standard-deviation comparison `2 * std < |x|` performed by the
source on floats is equivalent, over the exact rationals, to the squared
comparison `4 * var < x²` carried by the executable definitions. -/
theorem abs_gt_two_sqrt_iff (x v : ℚ) (hv : 0 ≤ v) :
    2 * Real.sqrt v < |(x : ℝ)| ↔ 4 * v < x ^ 2 := by
  have hvr : (0 : ℝ) ≤ (v : ℝ) := by exact_mod_cast hv
  have key : 2 * Real.sqrt v < |(x : ℝ)| ↔
      (2 * Real.sqrt v) ^ 2 < |(x : ℝ)| ^ 2 :=
    (pow_lt_pow_iff_left₀ (by positivity) (abs_nonneg _) (by norm_num)).symm
  rw [key, mul_pow, Real.sq_sqrt hvr, sq_abs]
  constructor
  · intro h
    have h4 : (4 : ℝ) * (v : ℝ) < ((x : ℝ)) ^ 2 := by linarith
    exact_mod_cast h4
  · intro h
    have h4 : (4 : ℝ) * (v : ℝ) < ((x : ℝ)) ^ 2 := by exact_mod_cast h
    linarith

/- ------------------------------------------------------------------ -/
/- Characterization of the volume-anomaly loop.                       -/
/- ------------------------------------------------------------------ -/

theorem countVals_length (rows : List Row) :
    (countVals rows).length = (dailyCounts rows).length := by
  simp [countVals]

theorem dailyCounts_keys (rows : List Row) :
    (dailyCounts rows).map Prod.fst =
      sortedDedup (rows.map (fun r => r.datetime.day)) := by
  rw [dailyCounts, groupCounts, List.map_map]
  exact List.map_id' _

theorem dailyCounts_keys_nodup (rows : List Row) :
    ((dailyCounts rows).map Prod.fst).Nodup := by
  rw [dailyCounts_keys]
  exact (sortedDedup_sorted _).nodup

theorem dailyCounts_date_inj (rows : List Row) (i j : Nat) (d : Int) (c c' : Nat)
    (hi : (dailyCounts rows)[i]? = some (d, c))
    (hj : (dailyCounts rows)[j]? = some (d, c')) : i = j := by
  have h1 : ((dailyCounts rows).map Prod.fst)[i]? = some d := by
    rw [List.getElem?_map, hi]
    rfl
  have h2 : ((dailyCounts rows).map Prod.fst)[j]? = some d := by
    rw [List.getElem?_map, hj]
    rfl
  have hlen : i < ((dailyCounts rows).map Prod.fst).length := by
    by_contra hcon
    rw [List.getElem?_eq_none (not_lt.mp hcon)] at h1
    cases h1
  exact List.getElem?_inj hlen (dailyCounts_keys_nodup rows) (h1.trans h2.symm)

theorem mkAnomaly_date (d : Int) (c : Nat) (e : ℚ) :
    (mkAnomaly d c e).date = d := by
  rw [mkAnomaly]
  split <;> rfl

theorem mkAnomaly_activity_count (d : Int) (c : Nat) (e : ℚ) :
    (mkAnomaly d c e).activity_count = c := by
  rw [mkAnomaly]
  split <;> rfl

theorem mkAnomaly_expected_count (d : Int) (c : Nat) (e : ℚ) :
    (mkAnomaly d c e).expected_count = e := by
  rw [mkAnomaly]
  split <;> rfl

theorem mkAnomaly_type (d : Int) (c : Nat) (e : ℚ) :
    (mkAnomaly d c e).type =
      (if e < (c : ℚ) then "high_activity" else "low_activity") := by
  rw [mkAnomaly]
  split <;> simp_all

theorem mem_volumeEvents_iff (rows : List Row) (v : ℚ)
    (hv : sampleVar (countVals rows) = some v) (ev : AnomalyEvent) :
    ev ∈ volumeEvents rows ↔
      ∃ (i : Nat) (d : Int) (c : Nat) (e : ℚ),
        (dailyCounts rows)[i]? = some (d, c) ∧
        (rollingMean7 (countVals rows))[i]? = some (some e) ∧
        4 * v < ((c : ℚ) - e) ^ 2 ∧ ev = mkAnomaly d c e := by
  unfold volumeEvents
  rw [hv]
  rw [List.mem_filterMap]
  constructor
  · rintro ⟨⟨⟨d, c⟩, b⟩, hp, hfp⟩
    cases b with
    | none => cases hfp
    | some e =>
      simp only at hfp
      split at hfp
      · next hcond =>
        obtain ⟨i, h1, h2⟩ := (mem_zip_iff _ _ _ _).mp hp
        cases hfp
        exact ⟨i, d, c, e, h1, h2, hcond, rfl⟩
      · cases hfp
  · rintro ⟨i, d, c, e, h1, h2, hcond, rfl⟩
    refine ⟨((d, c), some e), (mem_zip_iff _ _ _ _).mpr ⟨i, h1, h2⟩, ?_⟩
    simp only
    rw [if_pos hcond]

theorem volumeEvents_of_sampleVar_none (rows : List Row)
    (h : sampleVar (countVals rows) = none) : volumeEvents rows = [] := by
  unfold volumeEvents
  rw [h]

theorem volumeEvents_of_var_zero (rows : List Row)
    (h : sampleVar (countVals rows) = some 0) : volumeEvents rows = [] := by
  unfold volumeEvents
  rw [h]
  rw [List.filterMap_eq_nil_iff]
  rintro ⟨⟨d, c⟩, b⟩ hp
  cases b with
  | none => rfl
  | some e =>
    have hmean : ∀ x ∈ countVals rows, x = listMean (countVals rows) :=
      sampleVar_zero _ h
    have hb : some e ∈ rollingMean7 (countVals rows) := (List.of_mem_zip hp).2
    rcases mem_rollingMean7 _ _ hb with h' | ⟨k, hk, h'⟩
    · cases h'
    · have he : e = listMean (countVals rows) := by
        have hw := winMean_const (countVals rows) (listMean (countVals rows)) k hmean hk
        have he' := Option.some.inj h'
        rw [he', hw]
      have hc : (c : ℚ) = listMean (countVals rows) := by
        apply hmean
        rw [countVals, List.mem_map]
        exact ⟨(d, c), (List.of_mem_zip hp).1, rfl⟩
      simp only
      rw [if_neg]
      rw [he, hc]
      simp

/-- C6: if the (sample) standard deviation of the full daily-count series
is 0, the volume-anomaly loop of detect_life_events emits no records; in
particular the severity/confidence division, which occurs only inside an
emission, is never reached. -/
theorem volume_anomalies_empty_of_zero_std (rows : List Row)
    (h : sampleVar (countVals rows) = some 0) : volumeEvents rows = [] :=
  volumeEvents_of_var_zero rows h

theorem volume_anomalies_empty_of_zero_std_witness :
    sampleVar (countVals exC6rows) = some 0 ∧ volumeEvents exC6rows = [] :=
  ⟨by decide, volume_anomalies_empty_of_zero_std exC6rows (by decide)⟩

/-- C9: every record emitted by the volume-anomaly loop of
detect_life_events has confidence `min(|count − expected| / std / 3, 1)`
strictly greater than 2/3 and at most 1, because emission requires
`|count − expected| > 2 · std`. -/
theorem anomaly_confidence_bounds (rows : List Row) (v : ℚ) (ev : AnomalyEvent)
    (hv : sampleVar (countVals rows) = some v) (hev : ev ∈ volumeEvents rows) :
    2 / 3 < min (|(ev.activity_count : ℝ) - (ev.expected_count : ℝ)| / Real.sqrt v / 3) 1 ∧
      min (|(ev.activity_count : ℝ) - (ev.expected_count : ℝ)| / Real.sqrt v / 3) 1 ≤ 1 := by
  have hv0 : 0 ≤ v := sampleVar_nonneg _ _ hv
  have hvpos : 0 < v := by
    rcases eq_or_lt_of_le hv0 with h0 | h0
    · exfalso
      rw [volumeEvents_of_var_zero rows (h0 ▸ hv)] at hev
      exact List.not_mem_nil _ hev
    · exact h0
  obtain ⟨i, d, c, e, h1, h2, hcond, rfl⟩ := (mem_volumeEvents_iff rows v hv ev).mp hev
  rw [mkAnomaly_activity_count, mkAnomaly_expected_count]
  have hsq : 2 * Real.sqrt v < |(((c : ℚ) - e : ℚ) : ℝ)| :=
    (abs_gt_two_sqrt_iff ((c : ℚ) - e) v hv0).mpr hcond
  have habs : |(((c : ℚ) - e : ℚ) : ℝ)| = |(c : ℝ) - (e : ℝ)| := by
    push_cast
    rfl
  rw [habs] at hsq
  have hsqrtpos : 0 < Real.sqrt v := Real.sqrt_pos.mpr (by exact_mod_cast hvpos)
  have h2lt : 2 < |(c : ℝ) - (e : ℝ)| / Real.sqrt v :=
    (lt_div_iff₀ hsqrtpos).mpr (by linarith)
  constructor
  · rw [lt_min_iff]
    constructor
    · rw [div_div]
      rw [lt_div_iff₀ (by positivity)]
      rw [lt_div_iff₀ hsqrtpos] at h2lt
      calc (2 : ℝ) / 3 * (Real.sqrt v * 3) = 2 * Real.sqrt v := by ring
        _ < |(c : ℝ) - (e : ℝ)| := by linarith
    · norm_num
  · exact min_le_right _ _

theorem anomaly_confidence_bounds_witness :
    sampleVar (countVals exC9rows) = some 135 ∧
    mkAnomaly 7 50 (80 / 7) ∈ volumeEvents exC9rows ∧
    (2 / 3 < min (|((mkAnomaly 7 50 (80 / 7)).activity_count : ℝ) -
        ((mkAnomaly 7 50 (80 / 7)).expected_count : ℝ)| /
        Real.sqrt ((135 : ℚ) : ℝ) / 3) 1 ∧
      min (|((mkAnomaly 7 50 (80 / 7)).activity_count : ℝ) -
        ((mkAnomaly 7 50 (80 / 7)).expected_count : ℝ)| /
        Real.sqrt ((135 : ℚ) : ℝ) / 3) 1 ≤ 1) :=
  ⟨by decide, by decide,
    anomaly_confidence_bounds exC9rows 135 (mkAnomaly 7 50 (80 / 7))
      (by decide) (by decide)⟩

/-- C1 (amended): for every date of the daily-count series with a defined
rolling baseline, a volume-anomaly record is emitted iff the day's count
deviates from the baseline by more than twice the SAMPLE standard
deviation (pandas `Series.std()`, ddof = 1) of the whole series, computed
once; the emitted record's kind is high_activity when count > baseline and
low_activity otherwise. -/
theorem anomaly_emitted_iff_sample_std (rows : List Row) (v : ℚ) (d : Int)
    (c : Nat) (e : ℚ) (hv : sampleVar (countVals rows) = some v)
    (hmem : ((d, c), some e) ∈
      (dailyCounts rows).zip (rollingMean7 (countVals rows))) :
    ((∃ ev ∈ volumeEvents rows, ev.date = d) ↔
      2 * Real.sqrt v < |(c : ℝ) - (e : ℝ)|) ∧
    (∀ ev ∈ volumeEvents rows, ev.date = d →
      ev = mkAnomaly d c e ∧
      ev.type = (if e < (c : ℚ) then "high_activity" else "low_activity")) := by
  have hv0 : 0 ≤ v := sampleVar_nonneg _ _ hv
  obtain ⟨i, h1, h2⟩ := (mem_zip_iff _ _ _ _).mp hmem
  have habs : |(((c : ℚ) - e : ℚ) : ℝ)| = |(c : ℝ) - (e : ℝ)| := by
    push_cast
    rfl
  have hfix : ∀ ev ∈ volumeEvents rows, ev.date = d → ev = mkAnomaly d c e := by
    intro ev hev hdate
    obtain ⟨j, d', c', e', h1', h2', hcond', rfl⟩ :=
      (mem_volumeEvents_iff rows v hv ev).mp hev
    rw [mkAnomaly_date] at hdate
    rw [hdate] at h1'
    have hij : i = j := dailyCounts_date_inj rows i j d c c' h1 h1'
    rw [← hij] at h1' h2'
    have hcc : (d, c) = (d, c') := Option.some.inj (h1.symm.trans h1')
    have hc : c = c' := congrArg Prod.snd hcc
    have he : e = e' := Option.some.inj (Option.some.inj (h2.symm.trans h2'))
    rw [hdate, ← hc, ← he]
  constructor
  · constructor
    · rintro ⟨ev, hev, hdate⟩
      obtain ⟨j, d', c', e', h1', h2', hcond', heq⟩ :=
        (mem_volumeEvents_iff rows v hv ev).mp hev
      have hevfix : ev = mkAnomaly d c e := hfix ev hev hdate
      have hcc := congrArg AnomalyEvent.activity_count (heq.symm.trans hevfix)
      rw [mkAnomaly_activity_count, mkAnomaly_activity_count] at hcc
      have hee := congrArg AnomalyEvent.expected_count (heq.symm.trans hevfix)
      rw [mkAnomaly_expected_count, mkAnomaly_expected_count] at hee
      rw [← habs]
      refine (abs_gt_two_sqrt_iff ((c : ℚ) - e) v hv0).mpr ?_
      rw [← hcc, ← hee]
      exact hcond'
    · intro hgt
      rw [← habs] at hgt
      have hcond : 4 * v < ((c : ℚ) - e) ^ 2 :=
        (abs_gt_two_sqrt_iff ((c : ℚ) - e) v hv0).mp hgt
      exact ⟨mkAnomaly d c e,
        (mem_volumeEvents_iff rows v hv _).mpr ⟨i, d, c, e, h1, h2, hcond, rfl⟩,
        mkAnomaly_date d c e⟩
  · intro ev hev hdate
    refine ⟨hfix ev hev hdate, ?_⟩
    rw [hfix ev hev hdate, mkAnomaly_type]

/-- C1 (counterexample): on this 11-day series the centre day (day 5,
count 30) has a defined baseline 150/7 and deviates from it by more than
twice the POPULATION standard deviation of the series, yet the source
emits nothing (its threshold is the larger sample standard deviation);
the spec-worded variant emits a record for that day. -/
theorem anomaly_pop_std_counterexample :
    (rollingMean7 (countVals exC1rows))[5]? = some (some (150 / 7)) ∧
    popVar (countVals exC1rows) = some (2078 / 121) ∧
    2 * Real.sqrt (((2078 : ℚ) / 121 : ℚ) : ℝ) <
      |(((30 : ℚ) - 150 / 7 : ℚ) : ℝ)| ∧
    volumeEvents exC1rows = [] ∧
    volumeEventsPop exC1rows = [mkAnomaly 5 30 (150 / 7)] := by
  refine ⟨by decide, by decide, ?_, by decide, by decide⟩
  rw [abs_gt_two_sqrt_iff ((30 : ℚ) - 150 / 7) ((2078 : ℚ) / 121) (by norm_num)]
  decide

theorem anomaly_emitted_iff_sample_std_witness :
    sampleVar (countVals exC9rows) = some 135 ∧
    (((7 : Int), (50 : Nat)), some ((80 : ℚ) / 7)) ∈
      (dailyCounts exC9rows).zip (rollingMean7 (countVals exC9rows)) ∧
    ((∃ ev ∈ volumeEvents exC9rows, ev.date = 7) ↔
      2 * Real.sqrt ((135 : ℚ)) < |((50 : Nat) : ℝ) - (((80 : ℚ) / 7 : ℚ) : ℝ)|) :=
  ⟨by decide, by decide,
    (anomaly_emitted_iff_sample_std exC9rows 135 7 50 (80 / 7)
      (by decide) (by decide)).1⟩

/-- C2 (amended): the rolling baseline of detect_life_events is the
centered 7-value moving average with pandas' default
`min_periods = window`: position `i` has a baseline exactly when a full
window `i-3 .. i+3` lies inside the series (so the first three and last
three dates have none); every emitted record's expected value is such a
full-window mean, and a date whose baseline is undefined is skipped — it
never yields a record, and the missing baseline is never read as zero. -/
theorem baseline_full_window_and_skip (rows : List Row) :
    (rollingMean7 (countVals rows)).length = (dailyCounts rows).length ∧
    (∀ (i : Nat) (e : ℚ), (rollingMean7 (countVals rows))[i]? = some (some e) ↔
      (3 ≤ i ∧ i + 3 < (dailyCounts rows).length ∧
        e = winMean (countVals rows) (i - 3))) ∧
    (∀ ev ∈ volumeEvents rows, ∃ (i : Nat) (c : Nat),
      (dailyCounts rows)[i]? = some (ev.date, c) ∧
      (rollingMean7 (countVals rows))[i]? = some (some ev.expected_count)) ∧
    (∀ (i : Nat) (d : Int) (c : Nat), (dailyCounts rows)[i]? = some (d, c) →
      (rollingMean7 (countVals rows))[i]? = some none →
      ∀ ev ∈ volumeEvents rows, ev.date ≠ d) := by
  have hlen : (countVals rows).length = (dailyCounts rows).length :=
    countVals_length rows
  refine ⟨by rw [rollingMean7_length, hlen], ?_, ?_, ?_⟩
  · intro i e
    rw [rollingMean7_getElem, ← hlen]
    by_cases hi : i < (countVals rows).length
    · rw [if_pos hi]
      by_cases hcond : 3 ≤ i ∧ i + 3 < (countVals rows).length
      · rw [if_pos hcond]
        simp only [Option.some.injEq]
        constructor
        · intro h
          exact ⟨hcond.1, hcond.2, h.symm⟩
        · intro h
          exact h.2.2.symm
      · rw [if_neg hcond]
        simp only [Option.some.injEq]
        constructor
        · intro h
          cases h
        · intro h
          exact absurd ⟨h.1, h.2.1⟩ hcond
    · rw [if_neg hi]
      constructor
      · intro h
        cases h
      · intro h
        omega
  · cases hsv : sampleVar (countVals rows) with
    | none =>
      rw [volumeEvents_of_sampleVar_none _ hsv]
      intro ev hev
      cases hev
    | some v =>
      intro ev hev
      obtain ⟨i, d, c, e, h1, h2, _, rfl⟩ :=
        (mem_volumeEvents_iff rows v hsv ev).mp hev
      refine ⟨i, c, ?_, ?_⟩
      · rw [mkAnomaly_date]
        exact h1
      · rw [mkAnomaly_expected_count]
        exact h2
  · intro i d c h1 hnone ev hev hdate
    cases hsv : sampleVar (countVals rows) with
    | none =>
      rw [volumeEvents_of_sampleVar_none _ hsv] at hev
      cases hev
    | some v =>
      obtain ⟨j, d', c', e', h1', h2', _, rfl⟩ :=
        (mem_volumeEvents_iff rows v hsv ev).mp hev
      rw [mkAnomaly_date] at hdate
      rw [hdate] at h1'
      have hij : i = j := dailyCounts_date_inj rows i j d c c' h1 h1'
      rw [← hij] at h2'
      rw [hnone] at h2'
      cases Option.some.inj h2'

/-- C2 (counterexample): on this 10-day series the first date (count 100)
has no code-side baseline at all (`min_periods = 7` makes it NaN), so the
source emits nothing, while the spec's "use whatever values exist" rule
gives it baseline 103/4 and would emit a record for it. -/
theorem baseline_boundary_counterexample :
    (rollingMean7 (countVals exC2rows))[0]? = some none ∧
    (rollingMean7Minp1 (countVals exC2rows))[0]? = some (some (103 / 4)) ∧
    volumeEvents exC2rows = [] ∧
    volumeEventsMinp1 exC2rows = [mkAnomaly 0 100 (103 / 4)] :=
  ⟨by decide, by decide, by decide, by decide⟩

theorem baseline_full_window_and_skip_witness :
    (dailyCounts exC2rows)[0]? = some (0, 100) ∧
    (rollingMean7 (countVals exC2rows))[0]? = some none ∧
    (∀ ev ∈ volumeEvents exC2rows, ev.date ≠ 0) :=
  ⟨by decide, by decide,
    (baseline_full_window_and_skip exC2rows).2.2.2 0 0 100 (by decide) (by decide)⟩


/- ------------------------------------------------------------------ -/
/- The travel-period grouping loop.                                   -/
/- ------------------------------------------------------------------ -/

theorem chunkAux_flatten (ds : List Int) :
    ∀ cur last, (chunkAux cur last ds).flatten = cur ++ ds := by
  induction ds with
  | nil =>
    intro cur last
    simp [chunkAux]
  | cons d ds ih =>
    intro cur last
    rw [chunkAux]
    split
    · rw [ih]
      simp
    · rw [List.flatten_cons, ih]
      simp

theorem chunkAux_ne_nil (ds : List Int) :
    ∀ cur last, cur ≠ [] → ∀ r ∈ chunkAux cur last ds, r ≠ [] := by
  induction ds with
  | nil =>
    intro cur last hcur r hr
    rw [chunkAux] at hr
    rw [List.mem_singleton] at hr
    rw [hr]
    exact hcur
  | cons d ds ih =>
    intro cur last hcur r hr
    rw [chunkAux] at hr
    split at hr
    · exact ih _ _ (by simp) r hr
    · rcases List.mem_cons.mp hr with rfl | hr
      · exact hcur
      · exact ih _ _ (by simp) r hr

theorem chunkAux_chain (ds : List Int) :
    ∀ cur last, cur.getLast? = some last →
      List.Chain' (fun a b => b - a ≤ 1) cur →
      ∀ r ∈ chunkAux cur last ds, List.Chain' (fun a b => b - a ≤ 1) r := by
  induction ds with
  | nil =>
    intro cur last _ hchain r hr
    rw [chunkAux, List.mem_singleton] at hr
    rw [hr]
    exact hchain
  | cons d ds ih =>
    intro cur last hlast hchain r hr
    rw [chunkAux] at hr
    split at hr
    · next hd =>
      refine ih (cur ++ [d]) d (List.getLast?_concat cur) ?_ r hr
      rw [List.chain'_append]
      refine ⟨hchain, List.chain'_singleton d, ?_⟩
      intro x hx y hy
      rw [hlast] at hx
      rw [List.head?_cons] at hy
      cases hx
      cases hy
      exact hd
    · rcases List.mem_cons.mp hr with rfl | hr
      · exact hchain
      · exact ih [d] d rfl (List.chain'_singleton d) r hr

theorem chunkAux_shape (ds : List Int) :
    ∀ cur last, ∃ u rs, chunkAux cur last ds = (cur ++ u) :: rs := by
  induction ds with
  | nil =>
    intro cur last
    exact ⟨[], [], by rw [chunkAux]; simp⟩
  | cons d ds ih =>
    intro cur last
    rw [chunkAux]
    split
    · obtain ⟨u, rs, hu⟩ := ih (cur ++ [d]) d
      exact ⟨[d] ++ u, rs, by rw [hu]; simp⟩
    · exact ⟨[], chunkAux [d] d ds, by simp⟩

theorem chunkAux_boundary (ds : List Int) :
    ∀ cur last, cur.getLast? = some last →
      List.Chain' (fun r s => 1 < s.headD 0 - r.getLastD 0)
        (chunkAux cur last ds) := by
  induction ds with
  | nil =>
    intro cur last _
    rw [chunkAux]
    exact List.chain'_singleton cur
  | cons d ds ih =>
    intro cur last hlast
    rw [chunkAux]
    split
    · next hd => exact ih (cur ++ [d]) d (List.getLast?_concat cur)
    · next hd =>
      rw [List.chain'_cons']
      refine ⟨?_, ih [d] d rfl⟩
      intro s hs
      obtain ⟨u, rs, hu⟩ := chunkAux_shape ds [d] d
      rw [hu, List.head?_cons] at hs
      cases hs
      have hl : cur.getLastD 0 = last := by
        rw [List.getLastD_eq_getLast?, hlast]
        rfl
      rw [hl]
      simp only [List.cons_append, List.headD_cons]
      omega

theorem chunkRuns_flatten (dates : List Int) :
    (chunkRuns dates).flatten = dates := by
  cases dates with
  | nil => rfl
  | cons d ds => exact chunkAux_flatten ds [d] d

theorem chunkRuns_ne_nil (dates : List Int) :
    ∀ r ∈ chunkRuns dates, r ≠ [] := by
  cases dates with
  | nil =>
    intro r hr
    cases hr
  | cons d ds => exact chunkAux_ne_nil ds [d] d (by simp)

theorem chunkRuns_chain (dates : List Int) :
    ∀ r ∈ chunkRuns dates, List.Chain' (fun a b => b - a ≤ 1) r := by
  cases dates with
  | nil =>
    intro r hr
    cases hr
  | cons d ds => exact chunkAux_chain ds [d] d rfl (List.chain'_singleton d)

theorem chunkRuns_boundary (dates : List Int) :
    List.Chain' (fun r s => 1 < s.headD 0 - r.getLastD 0) (chunkRuns dates) := by
  cases dates with
  | nil => exact List.chain'_nil
  | cons d ds => exact chunkAux_boundary ds [d] d rfl

/-- C5: over the sorted distinct travel-labelled dates, the grouping loop
of _detect_travel_patterns partitions the dates into runs (conjunct 2)
that are internally ≤1-day-gapped (conjunct 3) and maximal — adjacent
runs are separated by a gap of more than one day (conjunct 4); exactly the
runs of length ≥ 2 become events, one each, with `date` the run's first
date and `duration_days` the run length (conjuncts 5-6); runs of length 1
produce nothing.  On qualifying dates Jan 1, 2, 3, 10 this yields exactly
one event of duration 3 starting Jan 1 (conjunct 7). -/
theorem travel_runs_merge (rows : List Row) :
    (travelDates rows).Sorted (· < ·) ∧
    (chunkRuns (travelDates rows)).flatten = travelDates rows ∧
    (∀ r ∈ chunkRuns (travelDates rows),
      r ≠ [] ∧ List.Chain' (fun a b => b - a ≤ 1) r) ∧
    List.Chain' (fun r s => 1 < s.headD 0 - r.getLastD 0)
      (chunkRuns (travelDates rows)) ∧
    detect_travel_patterns rows =
      ((chunkRuns (travelDates rows)).filter (fun p => 2 ≤ p.length)).map
        mkTravel ∧
    (∀ ev ∈ detect_travel_patterns rows, ∃ r ∈ chunkRuns (travelDates rows),
      2 ≤ r.length ∧ ev.date = r.headD 0 ∧ ev.duration_days = r.length) ∧
    detect_travel_patterns exC5rows = [mkTravel [1, 2, 3]] := by
  refine ⟨sortedDedup_sorted _, chunkRuns_flatten _,
    fun r hr => ⟨chunkRuns_ne_nil _ r hr, chunkRuns_chain _ r hr⟩,
    chunkRuns_boundary _, rfl, ?_, by decide⟩
  intro ev hev
  rw [detect_travel_patterns, List.mem_map] at hev
  obtain ⟨p, hp, rfl⟩ := hev
  rw [List.mem_filter] at hp
  refine ⟨p, hp.1, of_decide_eq_true hp.2, rfl, rfl⟩

theorem travel_runs_merge_witness :
    mkTravel [1, 2, 3] ∈ detect_travel_patterns exC5rows ∧
    (∃ r ∈ chunkRuns (travelDates exC5rows),
      2 ≤ r.length ∧ (mkTravel [1, 2, 3]).date = r.headD 0 ∧
      (mkTravel [1, 2, 3]).duration_days = r.length) :=
  ⟨by decide,
    (travel_runs_merge exC5rows).2.2.2.2.2.1 (mkTravel [1, 2, 3]) (by decide)⟩

/-- C7: a weekly count series with fewer than 3 points — overall or for
any label — is omitted entirely from the trend output: no slope and no
direction key is present for it; a series with 3 or more points gets the
ordinary-least-squares slope. -/
theorem trends_three_point_gate (f : Frame) (t : Trends)
    (ht : (analyze_activity_trends f).2 = some t) :
    ((weeklyCounts f.rows).length ≤ 2 →
      t.overall_trend = none ∧ t.trend_direction = none) ∧
    (2 < (weeklyCounts f.rows).length →
      t.overall_trend =
        some (olsSlope ((weeklyCounts f.rows).map (fun p => (p.2 : ℚ))))) ∧
    (∀ a : String, (labelWeekly f.rows a).length ≤ 2 →
      ∀ s : ℚ, (a, s) ∉ t.activity_specific_trends) ∧
    (∀ a ∈ firstDedup (f.rows.filterMap (fun r => r.predicted_activity)),
      2 < (labelWeekly f.rows a).length →
      (a, olsSlope ((labelWeekly f.rows a).map (fun p => (p.2 : ℚ)))) ∈
        t.activity_specific_trends) := by
  rw [analyze_activity_trends] at ht
  split at ht
  · cases ht
  · have hteq : t = trendsOf f.rows := (Option.some.inj ht).symm
    subst hteq
    refine ⟨?_, ?_, ?_, ?_⟩
    · intro hle
      have hgate : ¬2 < (weeklyCounts f.rows).length := not_lt.mpr hle
      constructor
      · rw [trendsOf]
        exact if_neg hgate
      · rw [trendsOf]
        exact if_neg hgate
    · intro hgt
      rw [trendsOf]
      simp only
      rw [if_pos hgt, calculate_trend, if_neg]
      rw [List.length_map]
      omega
    · intro a hle s hmem
      rw [trendsOf] at hmem
      simp only at hmem
      rw [List.mem_filterMap] at hmem
      obtain ⟨a', _, ha'⟩ := hmem
      split at ha'
      · next hgt =>
        have : a' = a := congrArg Prod.fst (Option.some.inj ha')
        rw [this] at hgt
        omega
      · cases ha'
    · intro a ha hgt
      rw [trendsOf]
      simp only
      rw [List.mem_filterMap]
      refine ⟨a, ha, ?_⟩
      rw [if_pos hgt, calculate_trend, if_neg]
      rw [List.length_map]
      omega

theorem trends_three_point_gate_witness :
    (analyze_activity_trends exC7frame).2 = some tC7 ∧
    (labelWeekly exC7frame.rows "Y").length ≤ 2 ∧
    (∀ s : ℚ, ("Y", s) ∉ tC7.activity_specific_trends) ∧
    2 < (labelWeekly exC7frame.rows "X").length ∧
    ("X", olsSlope ((labelWeekly exC7frame.rows "X").map (fun p => (p.2 : ℚ)))) ∈
      tC7.activity_specific_trends ∧
    2 < (weeklyCounts exC7frame.rows).length ∧
    tC7.overall_trend =
      some (olsSlope ((weeklyCounts exC7frame.rows).map (fun p => (p.2 : ℚ)))) := by
  refine ⟨by decide, by decide, ?_, by decide, ?_, by decide, ?_⟩
  · exact fun s =>
      (trends_three_point_gate exC7frame tC7 (by decide)).2.2.1 "Y" (by decide) s
  · exact (trends_three_point_gate exC7frame tC7 (by decide)).2.2.2 "X"
      (by decide) (by decide)
  · exact (trends_three_point_gate exC7frame tC7 (by decide)).2.1 (by decide)

/- ------------------------------------------------------------------ -/
/- Mode lemmas.                                                       -/
/- ------------------------------------------------------------------ -/

theorem seriesMode_spec (l : List Nat) (m : Nat) (h : seriesMode l = some m) :
    m ∈ l ∧ (∀ w ∈ l, l.count w ≤ l.count m) ∧
      (∀ w ∈ l, l.count w = l.count m → m ≤ w) := by
  rw [seriesMode] at h
  have hmem : m ∈ sortedDedup l := List.mem_of_find?_eq_some h
  have hfind := List.find?_some h
  have hcount : l.count m =
      ((sortedDedup l).map (fun v => l.count v)).foldr max 0 :=
    of_decide_eq_true hfind
  have hle : ∀ w ∈ l, l.count w ≤ l.count m := by
    intro w hw
    rw [hcount]
    exact le_foldr_max _ _
      (List.mem_map_of_mem _ ((mem_sortedDedup l w).mpr hw))
  refine ⟨(mem_sortedDedup l m).mp hmem, hle, ?_⟩
  intro w hw hcw
  refine find?_sorted_min _ _ (sortedDedup_sorted l) m h w
    ((mem_sortedDedup l w).mpr hw) ?_
  rw [decide_eq_true_iff, hcw, hcount]

theorem seriesMode_isSome (l : List Nat) (h : l ≠ []) :
    (seriesMode l).isSome := by
  rw [seriesMode, List.find?_isSome]
  have hvs : sortedDedup l ≠ [] := sortedDedup_ne_nil l h
  have hmx : ((sortedDedup l).map (fun v => l.count v)).foldr max 0 ∈
      (sortedDedup l).map (fun v => l.count v) := by
    apply foldr_max_mem
    intro hnil
    rw [List.map_eq_nil_iff] at hnil
    exact hvs hnil
  rw [List.mem_map] at hmx
  obtain ⟨v, hv, hveq⟩ := hmx
  exact ⟨v, hv, by rw [decide_eq_true_iff, hveq]⟩

/- ------------------------------------------------------------------ -/
/- C8, C10, C3, C4.                                                   -/
/- ------------------------------------------------------------------ -/

/-- C8 (counterexample): on a store whose per-day first-activity hours
are 9 then 7 (a frequency tie), the claim's tie-break (earliest first
occurrence) picks 9, but the source — pandas `mode().iloc[0]`, the
SMALLEST tied value — reports 7. -/
theorem mode_tie_counterexample :
    firstHours exC8frame.rows = [9, 7] ∧
    (analyze_daily_routine exC8frame).2.map (fun p => p.wake_up_time.most_common) =
      some (some 7) ∧
    modeFirstOccurrence (firstHours exC8frame.rows) = some 9 :=
  ⟨by decide, by decide, by decide⟩

/-- C8 (amended): for every non-empty store the reported `most_common` of
the per-day first-activity hours and of the per-day last-activity hours is
a most frequent value of that series, and among values tied for most
frequent the SMALLEST value wins (pandas sorts the modes ascending and
`iloc[0]` takes the first). -/
theorem mode_most_frequent_smallest_tie (f : Frame) (p : DailyPatterns)
    (hp : (analyze_daily_routine f).2 = some p) :
    p.wake_up_time.most_common.isSome ∧
    p.sleep_time.most_common.isSome ∧
    (∀ m, p.wake_up_time.most_common = some m →
      m ∈ firstHours f.rows ∧
      (∀ w ∈ firstHours f.rows,
        (firstHours f.rows).count w ≤ (firstHours f.rows).count m) ∧
      (∀ w ∈ firstHours f.rows,
        (firstHours f.rows).count w = (firstHours f.rows).count m → m ≤ w)) ∧
    (∀ m, p.sleep_time.most_common = some m →
      m ∈ lastHours f.rows ∧
      (∀ w ∈ lastHours f.rows,
        (lastHours f.rows).count w ≤ (lastHours f.rows).count m) ∧
      (∀ w ∈ lastHours f.rows,
        (lastHours f.rows).count w = (lastHours f.rows).count m → m ≤ w)) := by
  rw [analyze_daily_routine] at hp
  split at hp
  · cases hp
  · next hguard =>
    have hne : f.rows ≠ [] := by
      intro hnil
      apply hguard
      rw [hnil]
      rfl
    have hp' : p = patternsOf f.rows := (Option.some.inj hp).symm
    subst hp'
    have hdl : dayList f.rows ≠ [] := by
      apply sortedDedup_ne_nil
      intro hnil
      rw [List.map_eq_nil_iff] at hnil
      exact hne hnil
    have hwake : (patternsOf f.rows).wake_up_time.most_common =
        seriesMode (firstHours f.rows) := rfl
    have hsleep : (patternsOf f.rows).sleep_time.most_common =
        seriesMode (lastHours f.rows) := rfl
    refine ⟨?_, ?_, ?_, ?_⟩
    · rw [hwake]
      apply seriesMode_isSome
      intro hnil
      rw [firstHours, List.map_eq_nil_iff] at hnil
      exact hdl hnil
    · rw [hsleep]
      apply seriesMode_isSome
      intro hnil
      rw [lastHours, List.map_eq_nil_iff] at hnil
      exact hdl hnil
    · intro m hm
      rw [hwake] at hm
      exact seriesMode_spec _ m hm
    · intro m hm
      rw [hsleep] at hm
      exact seriesMode_spec _ m hm

theorem mode_most_frequent_smallest_tie_witness :
    (analyze_daily_routine exC8frame).2 = some (patternsOf exC8frame.rows) ∧
    (patternsOf exC8frame.rows).wake_up_time.most_common.isSome ∧
    (∀ m, (patternsOf exC8frame.rows).wake_up_time.most_common = some m →
      m ∈ firstHours exC8frame.rows ∧
      (∀ w ∈ firstHours exC8frame.rows,
        (firstHours exC8frame.rows).count w ≤ (firstHours exC8frame.rows).count m) ∧
      (∀ w ∈ firstHours exC8frame.rows,
        (firstHours exC8frame.rows).count w = (firstHours exC8frame.rows).count m →
          m ≤ w)) :=
  ⟨by decide,
    (mode_most_frequent_smallest_tie exC8frame (patternsOf exC8frame.rows)
      (by decide)).1,
    (mode_most_frequent_smallest_tie exC8frame (patternsOf exC8frame.rows)
      (by decide)).2.2.1⟩

/-- C10: analyze_daily_routine returns the empty dict for every frame
lacking the `datetime` column, even a non-empty one, without raising. -/
theorem missing_datetime_returns_empty (f : Frame)
    (h : f.hasDatetimeCol = false) : (analyze_daily_routine f).2 = none := by
  rw [analyze_daily_routine, if_pos]
  rw [h]
  simp

theorem missing_datetime_returns_empty_witness :
    exC10frame.rows ≠ [] ∧ exC10frame.hasDatetimeCol = false ∧
    (analyze_daily_routine exC10frame).2 = none :=
  ⟨by decide, rfl, missing_datetime_returns_empty exC10frame rfl⟩

/-- C3 (counterexample): for the empty input, analyze_daily_routine
returns the empty dict — no top-level key at all, `wake_up_time`
included — and on a frame whose weekly series has only 2 points the
trends dict omits the `overall_trend` and `trend_direction` keys; the
output contract's "every key always present" does not hold on the code. -/
theorem output_keys_counterexample :
    (analyze_daily_routine emptyFrame).2 = none ∧
    (analyze_activity_trends exC3frame).2.map (fun t => t.overall_trend) =
      some none ∧
    (analyze_activity_trends exC3frame).2.map (fun t => t.trend_direction) =
      some none :=
  ⟨by decide, by decide, by decide⟩

/-- C3 (amended): key presence is conditional on the data.
analyze_daily_routine returns the empty dict (no keys) when the frame is
empty or lacks `datetime`, and a dict with all five keys otherwise;
_analyze_activity_trends returns the empty dict on an empty frame and
otherwise a dict whose `overall_trend`/`trend_direction` keys exist
exactly when the weekly series has more than 2 points. -/
theorem output_keys_conditional (f : Frame) :
    ((f.rows.isEmpty || !f.hasDatetimeCol) = true →
      (analyze_daily_routine f).2 = none) ∧
    ((f.rows.isEmpty || !f.hasDatetimeCol) = false →
      (analyze_daily_routine f).2 = some (patternsOf f.rows)) ∧
    (f.rows.isEmpty = true → (analyze_activity_trends f).2 = none) ∧
    (f.rows.isEmpty = false →
      (analyze_activity_trends f).2 = some (trendsOf f.rows) ∧
      ((trendsOf f.rows).overall_trend.isSome ↔
        2 < (weeklyCounts f.rows).length) ∧
      ((trendsOf f.rows).trend_direction.isSome ↔
        2 < (weeklyCounts f.rows).length)) := by
  refine ⟨?_, ?_, ?_, ?_⟩
  · intro h
    rw [analyze_daily_routine, if_pos h]
  · intro h
    rw [analyze_daily_routine, if_neg]
    rw [h]
    simp
  · intro h
    rw [analyze_activity_trends, if_pos h]
  · intro h
    refine ⟨?_, ?_, ?_⟩
    · rw [analyze_activity_trends, if_neg]
      rw [h]
      simp
    · rw [trendsOf]
      simp only
      by_cases hgt : 2 < (weeklyCounts f.rows).length
      · rw [if_pos hgt]
        simp [hgt]
      · rw [if_neg hgt]
        simp [hgt]
    · rw [trendsOf]
      simp only
      by_cases hgt : 2 < (weeklyCounts f.rows).length
      · rw [if_pos hgt]
        simp [hgt]
      · rw [if_neg hgt]
        simp [hgt]

theorem output_keys_conditional_witness :
    (emptyFrame.rows.isEmpty || !emptyFrame.hasDatetimeCol) = true ∧
    (analyze_daily_routine emptyFrame).2 = none ∧
    (exC3frame.rows.isEmpty || !exC3frame.hasDatetimeCol) = false ∧
    (analyze_daily_routine exC3frame).2 = some (patternsOf exC3frame.rows) ∧
    exC3frame.rows.isEmpty = false ∧
    ((analyze_activity_trends exC3frame).2 = some (trendsOf exC3frame.rows) ∧
      ((trendsOf exC3frame.rows).overall_trend.isSome ↔
        2 < (weeklyCounts exC3frame.rows).length) ∧
      ((trendsOf exC3frame.rows).trend_direction.isSome ↔
        2 < (weeklyCounts exC3frame.rows).length)) :=
  ⟨rfl, (output_keys_conditional emptyFrame).1 rfl, rfl,
    (output_keys_conditional exC3frame).2.1 rfl, rfl,
    (output_keys_conditional exC3frame).2.2.2 rfl⟩

/-- C4 (counterexample): detect_life_events does not leave the caller's
frame unchanged: past its length guard it assigns the derived `date`
column in place on the caller's DataFrame (pattern_analyzer.py line 73),
so the frame after the call differs from the snapshot passed in. -/
theorem detect_mutates_frame_counterexample :
    (detect_life_events exC4frame).1 ≠ exC4frame ∧
    exC4frame.hasDateCol = false ∧
    (detect_life_events exC4frame).1.hasDateCol = true :=
  ⟨by decide, rfl, by decide⟩

/-- C4 (amended): analyze_daily_routine works on a copy and leaves the
caller's frame unchanged; detect_life_events and
_analyze_activity_trends assign derived columns (`date`/`datetime`,
`week`) in place on the caller's frame but never change its rows; no
analysis retains cross-call state, so repeating any analysis — even on
the frame mutated by the first call — returns the same result. -/
theorem analyses_pure_readers_of_rows (f : Frame) :
    (analyze_daily_routine f).1 = f ∧
    ((detect_life_events f).1).rows = f.rows ∧
    ((analyze_activity_trends f).1).rows = f.rows ∧
    (detect_life_events ((detect_life_events f).1)).2 =
      (detect_life_events f).2 ∧
    (analyze_daily_routine ((analyze_daily_routine f).1)).2 =
      (analyze_daily_routine f).2 ∧
    (analyze_activity_trends ((analyze_activity_trends f).1)).2 =
      (analyze_activity_trends f).2 := by
  have h1 : (analyze_daily_routine f).1 = f := by
    rw [analyze_daily_routine]
    split <;> rfl
  have h2 : ((detect_life_events f).1).rows = f.rows := by
    rw [detect_life_events]
    split <;> rfl
  have h3 : ((analyze_activity_trends f).1).rows = f.rows := by
    rw [analyze_activity_trends]
    split <;> rfl
  refine ⟨h1, h2, h3, ?_, ?_, ?_⟩
  · by_cases hlen : f.rows.length < 10
    · simp [detect_life_events, hlen]
    · simp [detect_life_events, hlen]
  · rw [h1]
  · have hrw : ∀ g : Frame, g.rows = f.rows →
        (analyze_activity_trends g).2 = (analyze_activity_trends f).2 := by
      intro g hg
      rw [analyze_activity_trends, analyze_activity_trends, hg]
      by_cases hne : f.rows.isEmpty
      · rw [if_pos hne, if_pos hne]
      · rw [if_neg hne, if_neg hne]
    exact hrw _ h3
